import Mathlib

/-
  Verification of the core data model and algorithms of the
  compute_shader_tutorial repository: the cellular-automaton grid store,
  the brush rasterizer, the camera input handling, the pointer coordinate
  conversions, and the textured-quad mesh.

  Machine integers of the source (u32, i32, usize) are modelled as Nat/Int;
  f32 quantities are modelled exactly over the rationals (the source only
  performs arithmetic that is exact at the scales involved), except where a
  definition notes otherwise.
-/

namespace CST

/-! ## Constants (src/main.rs) -/

def CANVAS_SIZE_X : ℕ := 512

def CANVAS_SIZE_Y : ℕ := 512

def LOCAL_SIZE_X : ℕ := 32

def LOCAL_SIZE_Y : ℕ := 32

def CAMERA_MOVE_SPEED : ℚ := 200

/-! ## Grid coordinates (src/ca_simulator.rs) -/

/-- Two-dimensional integer vector, as bevy IVec2 (i32 components). -/
structure IVec2 where
  x : ℤ
  y : ℤ
deriving DecidableEq, Repr

/-- `CASimulator::is_inside`: are we within simulation bounds? -/
def is_inside (pos : IVec2) : Bool :=
  pos.x ≥ 0 && pos.x < (CANVAS_SIZE_X : ℤ) && pos.y ≥ 0 && pos.y < (CANVAS_SIZE_Y : ℤ)

/-- `CASimulator::index`: index to access the one dimensional grid with a two
dimensional position.  The source computes `pos.y * CANVAS_SIZE_Y as i32 + pos.x`
(note: the HEIGHT constant appears where the width is expected) and casts the
result to `usize`; we keep the value as an integer and prove nonnegativity
separately for in-bounds positions. -/
def index (pos : IVec2) : ℤ :=
  pos.y * (CANVAS_SIZE_Y : ℤ) + pos.x

theorem is_inside_iff (p : IVec2) :
    is_inside p = true ↔ 0 ≤ p.x ∧ p.x < 512 ∧ 0 ≤ p.y ∧ p.y < 512 := by
  simp only [is_inside, CANVAS_SIZE_X, CANVAS_SIZE_Y, Bool.and_eq_true, decide_eq_true_eq,
    ge_iff_le, Nat.cast_ofNat]
  constructor
  · rintro ⟨⟨⟨h1, h2⟩, h3⟩, h4⟩
    exact ⟨h1, by exact_mod_cast h2, h3, by exact_mod_cast h4⟩
  · rintro ⟨h1, h2, h3, h4⟩
    exact ⟨⟨⟨h1, by exact_mod_cast h2⟩, h3⟩, by exact_mod_cast h4⟩

/-- Injectivity of `index` on the in-bounds rectangle. -/
theorem index_injOn {p q : IVec2} (hp : is_inside p = true) (hq : is_inside q = true)
    (h : index p = index q) : p = q := by
  rw [is_inside_iff] at hp hq
  simp only [index, CANVAS_SIZE_Y, Nat.cast_ofNat] at h
  obtain ⟨hx, hx2, hy, hy2⟩ := hp
  obtain ⟨hx3, hx4, hy3, hy4⟩ := hq
  cases p; cases q
  simp only [IVec2.mk.injEq]
  simp only at h hx hx2 hy hy2 hx3 hx4 hy3 hy4
  omega

/-- Range of `index` on the in-bounds rectangle. -/
theorem index_bounds {p : IVec2} (hp : is_inside p = true) :
    0 ≤ index p ∧ index p < (CANVAS_SIZE_X : ℤ) * (CANVAS_SIZE_Y : ℤ) := by
  rw [is_inside_iff] at hp
  simp only [index, CANVAS_SIZE_X, CANVAS_SIZE_Y, Nat.cast_ofNat]
  omega

/-- C1: over the full 512 × 512 coordinate space the linear index function is
injective, and for every in-bounds coordinate the index equals `y * width + x`
(width = CANVAS_SIZE_X = 512; the source multiplies by CANVAS_SIZE_Y, which is
also 512, so the two formulas agree on this configuration). -/
theorem c1_index_injective_and_row_major (p q : IVec2)
    (hp : is_inside p = true) (hq : is_inside q = true) :
    (index p = index q → p = q) ∧ index p = p.y * (CANVAS_SIZE_X : ℤ) + p.x := by
  refine ⟨fun h => index_injOn hp hq h, ?_⟩
  simp [index, CANVAS_SIZE_X, CANVAS_SIZE_Y]

/-- Witness for C1 at concrete in-bounds coordinates. -/
theorem c1_witness :
    is_inside ⟨3, 7⟩ = true ∧ is_inside ⟨7, 3⟩ = true ∧
    ((index ⟨3, 7⟩ = index ⟨7, 3⟩ → (⟨3, 7⟩ : IVec2) = ⟨7, 3⟩) ∧
      index ⟨3, 7⟩ = (7 : ℤ) * (CANVAS_SIZE_X : ℤ) + 3) :=
  ⟨by decide, by decide,
    c1_index_injective_and_row_major ⟨3, 7⟩ ⟨7, 3⟩ (by decide) (by decide)⟩

/-! ## Brush rasterizer (src/ca_simulator.rs, `CASimulator::draw_matter`)

The matter buffer `matter_in` is modelled as a function from buffer indices to
u32 matter values; `matter_in[self.index(p)] = matter` is a pointwise update at
the integer `index p`.

The source compares `world_pos.distance(center).round() <= radius` in f32 and
uses `radius as i32` for the bounding box; for a nonnegative radius the i32 cast
truncates and an integer compared against the float radius is `<=` exactly when
it is `<= floor(radius)`, so the brush with float radius r behaves as with the
natural number `floor r`.  We therefore take the radius as a natural number and
decide `round (sqrt (dx^2 + dy^2)) <= r` by the exact integer characterisation
`dx*dx + dy*dy <= r*r + r` (proved equivalent to the real formulation in
`dist_round_le_iff_round_sqrt` below; no rounding ties can occur at integers). -/

/-- Rounded Euclidean distance of the integer offset `(dx, dy)` is `≤ r`:
models `Vec2::distance(..).round() <= radius` of the source at integer inputs. -/
def dist_round_le (dx dy : ℤ) (r : ℕ) : Bool :=
  decide (dx * dx + dy * dy ≤ (r : ℤ) * r + r)

/-- One buffer write `matter_in[index p] = m`. -/
def writeCell (m : ℕ) (p : IVec2) (g : ℤ → ℕ) : ℤ → ℕ :=
  fun i => if i = index p then m else g i

/-- The `n` consecutive integers starting at `a`. -/
def intRangeAux (a : ℤ) : ℕ → List ℤ
  | 0 => []
  | n + 1 => a :: intRangeAux (a + 1) n

/-- The inclusive integer range `a..=b` of a Rust `for` loop. -/
def intRange (a b : ℤ) : List ℤ :=
  intRangeAux a (b + 1 - a).toNat

/-- The inner `for x in x1..=x2` loop of `draw_matter` at row `y`. -/
def stampRow (pos : IVec2) (r m : ℕ) (y : ℤ) (g : ℤ → ℕ) : ℤ → ℕ :=
  (intRange (pos.x - r) (pos.x + r)).foldl
    (fun g x =>
      if dist_round_le (x - pos.x) (y - pos.y) r && is_inside ⟨x, y⟩ then
        writeCell m ⟨x, y⟩ g
      else g) g

/-- The `for y in y1..=y2` loop of `draw_matter` for one walk point `pos`. -/
def stampAt (pos : IVec2) (r m : ℕ) (g : ℤ → ℕ) : ℤ → ℕ :=
  (intRange (pos.y - r) (pos.y + r)).foldl (fun g y => stampRow pos r m y g) g

/-- `CASimulator::draw_matter`: draw a matter line with the given radius.
Walk points outside the canvas are skipped (the `continue`). -/
def draw_matter (line : List IVec2) (r m : ℕ) (g : ℤ → ℕ) : ℤ → ℕ :=
  line.foldl (fun g pos => if is_inside pos then stampAt pos r m g else g) g

theorem mem_intRangeAux {x a : ℤ} {n : ℕ} : x ∈ intRangeAux a n ↔ a ≤ x ∧ x < a + n := by
  induction n generalizing a with
  | zero =>
    simp only [intRangeAux, List.not_mem_nil, false_iff]
    omega
  | succ n ih =>
    simp only [intRangeAux, List.mem_cons, ih]
    omega

theorem mem_intRange {a b x : ℤ} : x ∈ intRange a b ↔ a ≤ x ∧ x ≤ b := by
  rw [intRange, mem_intRangeAux]
  omega

/-- Generic description of a left fold of conditional constant writes: the
result at `i` is the written value exactly when some element of the list hits
`i`, and the original value otherwise. -/
theorem foldl_update_apply {α : Type} (P : α → ℤ → Prop) [inst : ∀ a i, Decidable (P a i)]
    (m : ℕ) (s : α → (ℤ → ℕ) → ℤ → ℕ)
    (hs : ∀ a g i, s a g i = if P a i then m else g i)
    (l : List α) (g : ℤ → ℕ) (i : ℤ) :
    (l.foldl (fun g a => s a g) g) i = if ∃ a ∈ l, P a i then m else g i := by
  induction l generalizing g with
  | nil => simp
  | cons a l ih =>
    simp only [List.foldl_cons]
    rw [ih, hs]
    by_cases h1 : ∃ a' ∈ l, P a' i
    · simp [h1]
    · by_cases h2 : P a i
      · simp [h1, h2]
      · simp [h1, h2]

theorem stampRow_apply (pos : IVec2) (r m : ℕ) (y : ℤ) (g : ℤ → ℕ) (i : ℤ) :
    stampRow pos r m y g i =
      if ∃ x ∈ intRange (pos.x - r) (pos.x + r),
          (dist_round_le (x - pos.x) (y - pos.y) r && is_inside ⟨x, y⟩) = true ∧
            i = index ⟨x, y⟩
      then m else g i := by
  refine foldl_update_apply
    (fun x i => (dist_round_le (x - pos.x) (y - pos.y) r && is_inside ⟨x, y⟩) = true ∧
      i = index ⟨x, y⟩) m _ ?_ _ g i
  intro x g' i'
  by_cases hc : (dist_round_le (x - pos.x) (y - pos.y) r && is_inside ⟨x, y⟩) = true
  · simp [hc, writeCell]
  · simp [hc]

theorem stampAt_apply (pos : IVec2) (r m : ℕ) (g : ℤ → ℕ) (i : ℤ) :
    stampAt pos r m g i =
      if ∃ y ∈ intRange (pos.y - r) (pos.y + r),
          ∃ x ∈ intRange (pos.x - r) (pos.x + r),
            (dist_round_le (x - pos.x) (y - pos.y) r && is_inside ⟨x, y⟩) = true ∧
              i = index ⟨x, y⟩
      then m else g i := by
  refine foldl_update_apply
    (fun y i => ∃ x ∈ intRange (pos.x - r) (pos.x + r),
      (dist_round_le (x - pos.x) (y - pos.y) r && is_inside ⟨x, y⟩) = true ∧
        i = index ⟨x, y⟩) m _ ?_ _ g i
  intro y g' i'
  exact stampRow_apply pos r m y g' i'

theorem draw_matter_apply (line : List IVec2) (r m : ℕ) (g : ℤ → ℕ) (i : ℤ) :
    draw_matter line r m g i =
      if ∃ pos ∈ line, is_inside pos = true ∧
          ∃ y ∈ intRange (pos.y - r) (pos.y + r),
            ∃ x ∈ intRange (pos.x - r) (pos.x + r),
              (dist_round_le (x - pos.x) (y - pos.y) r && is_inside ⟨x, y⟩) = true ∧
                i = index ⟨x, y⟩
      then m else g i := by
  refine foldl_update_apply
    (fun pos i => is_inside pos = true ∧
      ∃ y ∈ intRange (pos.y - r) (pos.y + r),
        ∃ x ∈ intRange (pos.x - r) (pos.x + r),
          (dist_round_le (x - pos.x) (y - pos.y) r && is_inside ⟨x, y⟩) = true ∧
            i = index ⟨x, y⟩) m _ ?_ _ g i
  intro pos g' i'
  by_cases hin : is_inside pos = true
  · simp only [hin, if_pos, true_and]
    exact stampAt_apply pos r m g' i'
  · simp [hin]

/-- A rounded distance within `r` bounds each coordinate offset by `r`. -/
theorem dist_round_le_box {dx dy : ℤ} {r : ℕ} (h : dist_round_le dx dy r = true) :
    -(r : ℤ) ≤ dx ∧ dx ≤ r ∧ -(r : ℤ) ≤ dy ∧ dy ≤ r := by
  simp only [dist_round_le, decide_eq_true_eq] at h
  have hx : dx * dx ≤ (r : ℤ) * r + r := le_trans (by nlinarith [mul_self_nonneg dy]) h
  have hy : dy * dy ≤ (r : ℤ) * r + r := le_trans (by nlinarith [mul_self_nonneg dx]) h
  refine ⟨?_, ?_, ?_, ?_⟩ <;> nlinarith [mul_self_nonneg (dx - r), mul_self_nonneg (dx + r),
    mul_self_nonneg (dy - r), mul_self_nonneg (dy + r)]

/-- The integer test `dx*dx + dy*dy ≤ r*r + r` is exactly
`round (sqrt (dx² + dy²)) ≤ r`, the rounded Euclidean distance comparison of
the source (no rounding tie can occur at an integer point, so the exact-real
reading of the f32 expression is unambiguous). -/
theorem dist_round_le_iff_round_sqrt (dx dy : ℤ) (r : ℕ) :
    dist_round_le dx dy r = true ↔
      round (Real.sqrt ((dx : ℝ) ^ 2 + (dy : ℝ) ^ 2)) ≤ (r : ℤ) := by
  simp only [dist_round_le, decide_eq_true_eq]
  rw [round_eq, Int.floor_le_iff]
  have h05 : (0 : ℝ) < (r : ℝ) + 1 / 2 := by positivity
  constructor
  · intro h
    have hs : Real.sqrt ((dx : ℝ) ^ 2 + (dy : ℝ) ^ 2) < (r : ℝ) + 1 / 2 := by
      rw [Real.sqrt_lt' h05]
      have hc : ((dx * dx + dy * dy : ℤ) : ℝ) ≤ (((r : ℤ) * r + r : ℤ) : ℝ) := by
        exact_mod_cast h
      push_cast at hc
      nlinarith
    push_cast
    linarith
  · intro h
    have hs : Real.sqrt ((dx : ℝ) ^ 2 + (dy : ℝ) ^ 2) < (r : ℝ) + 1 / 2 := by
      push_cast at h
      linarith
    rw [Real.sqrt_lt' h05] at hs
    have hc : ((dx * dx + dy * dy : ℤ) : ℝ) < (((r : ℤ) * r + r : ℤ) : ℝ) + 1 := by
      push_cast
      nlinarith
    have hlt : (dx * dx + dy * dy : ℤ) < (r : ℤ) * r + r + 1 := by exact_mod_cast hc
    omega

/-- C2 (amended): a single-point stroke whose center lies in bounds writes `m`
to exactly the in-bounds cells whose rounded Euclidean distance to the center
is at most `r`; every other cell, and every buffer index that is not the index
of an in-bounds cell, keeps its previous value. -/
theorem c2_single_point_stamp (cx cy x y : ℤ) (r m : ℕ) (g : ℤ → ℕ)
    (hc : is_inside ⟨cx, cy⟩ = true) (hp : is_inside ⟨x, y⟩ = true) :
    (draw_matter [⟨cx, cy⟩] r m g (index ⟨x, y⟩) =
        if dist_round_le (x - cx) (y - cy) r = true then m else g (index ⟨x, y⟩)) ∧
      ∀ i : ℤ, (∀ q : IVec2, is_inside q = true → i ≠ index q) →
        draw_matter [⟨cx, cy⟩] r m g i = g i := by
  constructor
  · rw [draw_matter_apply]
    by_cases hd : dist_round_le (x - cx) (y - cy) r = true
    · rw [if_pos, if_pos hd]
      refine ⟨⟨cx, cy⟩, List.mem_singleton_self _, hc, y, ?_, x, ?_, ?_, rfl⟩
      · have hb := dist_round_le_box hd
        dsimp only
        rw [mem_intRange]
        omega
      · have hb := dist_round_le_box hd
        dsimp only
        rw [mem_intRange]
        omega
      · rw [Bool.and_eq_true]
        exact ⟨hd, hp⟩
    · rw [if_neg, if_neg hd]
      rintro ⟨pos, hmem, hin, y', hy', x', hx', hcond, heq⟩
      rw [List.mem_singleton] at hmem
      subst hmem
      dsimp only at hcond
      rw [Bool.and_eq_true] at hcond
      have hxy : (⟨x, y⟩ : IVec2) = ⟨x', y'⟩ := index_injOn hp hcond.2 heq
      simp only [IVec2.mk.injEq] at hxy
      obtain ⟨h1, h2⟩ := hxy
      subst h1; subst h2
      exact hd hcond.1
  · intro i hi
    rw [draw_matter_apply]
    rw [if_neg]
    rintro ⟨pos, hmem, hin, y', hy', x', hx', hcond, heq⟩
    rw [Bool.and_eq_true] at hcond
    exact hi ⟨x', y'⟩ hcond.2 heq

/-- C2 counterexample to the claim as stated: (a) with the stroke center out of
bounds, an in-bounds cell within rounded distance `r` of the center is NOT
written (the walk point is skipped); (b) the "holds m afterwards iff" direction
fails on a grid that already holds `m`: a cell far from the stroke still holds
`m` afterwards. -/
theorem c2_counterexample :
    (dist_round_le (0 - (-1)) (0 - 0) 1 = true ∧ is_inside ⟨0, 0⟩ = true ∧
      draw_matter [⟨-1, 0⟩] 1 5 (fun _ => 0) (index ⟨0, 0⟩) = 0) ∧
    (is_inside ⟨100, 100⟩ = true ∧ dist_round_le (0 - 100) (0 - 100) 1 = false ∧
      is_inside ⟨0, 0⟩ = true ∧
      draw_matter [⟨100, 100⟩] 1 5 (fun _ => 5) (index ⟨0, 0⟩) = 5) := by
  decide

/-- Witness for C2 at a concrete stroke. -/
theorem c2_witness :
    is_inside ⟨100, 100⟩ = true ∧ is_inside ⟨101, 100⟩ = true ∧
    ((draw_matter [⟨100, 100⟩] 1 5 (fun _ => 0) (index ⟨101, 100⟩) =
        if dist_round_le (101 - 100) (100 - 100) 1 = true then 5
        else (fun _ => 0 : ℤ → ℕ) (index ⟨101, 100⟩)) ∧
      ∀ i : ℤ, (∀ q : IVec2, is_inside q = true → i ≠ index q) →
        draw_matter [⟨100, 100⟩] 1 5 (fun _ => 0) i = (fun _ => 0 : ℤ → ℕ) i) :=
  ⟨by decide, by decide,
    c2_single_point_stamp 100 100 101 100 1 5 (fun _ => 0) (by decide) (by decide)⟩

/-- C3: `draw_matter` only ever changes buffer entries at the linear index of
an in-bounds cell; every such index is nonnegative and strictly below
`width * height` (so every write stays inside the `width * height` grid buffer
and the routine cannot fault), for every line, radius, matter id and grid. -/
theorem c3_draw_matter_safety (line : List IVec2) (r m : ℕ) (g : ℤ → ℕ) (i : ℤ)
    (h : draw_matter line r m g i ≠ g i) :
    (0 ≤ i ∧ i < (CANVAS_SIZE_X : ℤ) * (CANVAS_SIZE_Y : ℤ)) ∧
      ∃ q : IVec2, is_inside q = true ∧ i = index q := by
  rw [draw_matter_apply] at h
  split_ifs at h with hc
  · obtain ⟨pos, hmem, hin, y', hy', x', hx', hcond, heq⟩ := hc
    rw [Bool.and_eq_true] at hcond
    subst heq
    exact ⟨index_bounds hcond.2, ⟨x', y'⟩, hcond.2, rfl⟩
  · exact absurd rfl h

/-- Witness for C3 at a concrete stroke that changes the buffer. -/
theorem c3_witness :
    draw_matter [⟨0, 0⟩] 0 1 (fun _ => 0) 0 ≠ (fun _ => 0 : ℤ → ℕ) 0 ∧
    ((0 ≤ (0 : ℤ) ∧ (0 : ℤ) < (CANVAS_SIZE_X : ℤ) * (CANVAS_SIZE_Y : ℤ)) ∧
      ∃ q : IVec2, is_inside q = true ∧ (0 : ℤ) = index q) :=
  ⟨by decide, c3_draw_matter_safety [⟨0, 0⟩] 0 1 (fun _ => 0) 0 (by decide)⟩

/-! ## Line rasterization (src/utils.rs, `get_canvas_line`)

`get_canvas_line` walks the segment between the previous and current canvas
positions with `line_drawing::Bresenham`.  That walker lives in the
`line_drawing` crate, an external dependency whose source is not part of this
repository, so it is modelled here from the spec. -/

/-- Modelled from the spec: octant classification of the Bresenham walk used by
`get_canvas_line` (the `line_drawing` crate is not under src/).  The spec asks
for "integer line rasterization (Bresenham) producing an ordered, finite,
non-restartable sequence of integer grid coordinates, inclusive of both
endpoints"; the standard Bresenham algorithm reduces a segment to octant 0
(0 ≤ dy ≤ dx), walks it, and maps the points back. -/
def octant_from_points (a b : ℤ × ℤ) : ℕ :=
  let dx := b.1 - a.1
  let dy := b.2 - a.2
  let t1 : ℤ × ℤ × ℕ := if dy < 0 then (-dx, -dy, 4) else (dx, dy, 0)
  let t2 : ℤ × ℤ × ℕ :=
    if t1.1 < 0 then (t1.2.1, -t1.1, t1.2.2 + 2) else (t1.1, t1.2.1, t1.2.2)
  if t2.1 < t2.2.1 then t2.2.2 + 1 else t2.2.2

/-- Modelled from the spec: map a point into octant-0 coordinates. -/
def to_octant0 (oct : ℕ) (p : ℤ × ℤ) : ℤ × ℤ :=
  match oct with
  | 0 => (p.1, p.2)
  | 1 => (p.2, p.1)
  | 2 => (p.2, -p.1)
  | 3 => (-p.1, p.2)
  | 4 => (-p.1, -p.2)
  | 5 => (-p.2, -p.1)
  | 6 => (-p.2, p.1)
  | _ => (p.1, -p.2)

/-- Modelled from the spec: map an octant-0 point back to the original octant. -/
def from_octant0 (oct : ℕ) (p : ℤ × ℤ) : ℤ × ℤ :=
  match oct with
  | 0 => (p.1, p.2)
  | 1 => (p.2, p.1)
  | 2 => (-p.2, p.1)
  | 3 => (-p.1, p.2)
  | 4 => (-p.1, -p.2)
  | 5 => (-p.2, -p.1)
  | 6 => (p.2, -p.1)
  | _ => (p.1, -p.2)

/-- Modelled from the spec: the octant-0 Bresenham stepping loop; one point is
emitted per unit step in x, and the error accumulator decides when y advances. -/
def bres_loop (dx dy : ℤ) : ℕ → (ℤ × ℤ) → ℤ → List (ℤ × ℤ)
  | 0, _, _ => []
  | n + 1, p, err =>
    let p2 : ℤ × ℤ := if err ≥ 0 then (p.1 + 1, p.2 + 1) else (p.1 + 1, p.2)
    let err2 : ℤ := (if err ≥ 0 then err - dx else err) + dy
    p :: bres_loop dx dy n p2 err2

/-- Modelled from the spec: the full Bresenham walk from `a` to `b`, inclusive
of both endpoints. -/
def bresenham (a b : ℤ × ℤ) : List (ℤ × ℤ) :=
  let oct := octant_from_points a b
  let s := to_octant0 oct a
  let e := to_octant0 oct b
  let dx := e.1 - s.1
  let dy := e.2 - s.2
  (bres_loop dx dy (dx + 1).toNat s (dy - dx)).map (from_octant0 oct)

/-- C4: the Bresenham walk from (0,0) to (5,5) yields exactly 6 points, starts
at (0,0), ends at (5,5), and both coordinates are monotonically non-decreasing
along the whole sequence. -/
theorem c4_bresenham_diagonal :
    (bresenham (0, 0) (5, 5)).length = 6 ∧
    (bresenham (0, 0) (5, 5)).head? = some (0, 0) ∧
    (bresenham (0, 0) (5, 5)).getLast? = some (5, 5) ∧
    List.Pairwise (fun p q : ℤ × ℤ => p.1 ≤ q.1 ∧ p.2 ≤ q.2) (bresenham (0, 0) (5, 5)) := by
  decide

/-! ## Pointer coordinate conversions (src/utils.rs)

f32 vector arithmetic (subtraction, scalar multiplication, addition of halves
of even constants) is modelled exactly over ℚ. -/

/-- `cursor_to_world`: converts a cursor position to world coordinates.
`win_w`/`win_h` are `window.width()`/`window.height()` and `cursor` the
`window.cursor_position()` of the source. -/
def cursor_to_world (cursor : ℚ × ℚ) (win_w win_h : ℚ) (camera_pos : ℚ × ℚ)
    (camera_scale : ℚ) : ℚ × ℚ :=
  ((cursor.1 - win_w / 2) * camera_scale - camera_pos.1,
   (cursor.2 - win_h / 2) * camera_scale - camera_pos.2)

/-- `MousePos::canvas_pos`: converts a world position to a canvas position.
(The doc comment of the source says it inverts y; the body only adds half the
canvas size to each component.) -/
def canvas_pos (world : ℚ × ℚ) : ℚ × ℚ :=
  (world.1 + (CANVAS_SIZE_X : ℚ) / 2, world.2 + (CANVAS_SIZE_Y : ℚ) / 2)

/-- C5: `cursor_to_world` computes
`(cursor - (viewport_w/2, viewport_h/2)) * scale - position`, and maps the
exact viewport-center pixel to world `(0,0)` whenever `position = (0,0)`,
for every scale. -/
theorem c5_cursor_to_world (cursor : ℚ × ℚ) (w h s : ℚ) (pos : ℚ × ℚ) :
    cursor_to_world cursor w h pos s =
      ((cursor.1 - w / 2) * s - pos.1, (cursor.2 - h / 2) * s - pos.2) ∧
    cursor_to_world (w / 2, h / 2) w h (0, 0) s = (0, 0) := by
  refine ⟨rfl, ?_⟩
  simp [cursor_to_world]

/-- C10: `canvas_pos` adds half the canvas size (256) to each component; the
two axes are treated identically and no y inversion is performed. -/
theorem c10_canvas_pos (world : ℚ × ℚ) :
    canvas_pos world = (world.1 + 256, world.2 + 256) := by
  simp only [canvas_pos, CANVAS_SIZE_X, CANVAS_SIZE_Y]
  norm_num

/-! ## Textured quad mesh (src/vertex.rs, src/quad_pipeline.rs) -/

/-- A vertex for textured quads (f32 fields over ℚ). -/
structure TexturedVertex where
  color : ℚ × ℚ × ℚ × ℚ
  position : ℚ × ℚ
  tex_coords : ℚ × ℚ
deriving DecidableEq, Repr

/-- A textured quad: vertices and indices. -/
structure TexturedQuad where
  vertices : List TexturedVertex
  indices : List ℕ
deriving DecidableEq, Repr

/-- `TexturedQuad::new`: a textured quad with the given width and height
centered at `(0, 0)`. -/
def TexturedQuad.new (width height : ℚ) (color : ℚ × ℚ × ℚ × ℚ) : TexturedQuad :=
  { vertices := [
      { position := (-(width / 2), -(height / 2)), tex_coords := (0, 1), color := color },
      { position := (-(width / 2), height / 2), tex_coords := (0, 0), color := color },
      { position := (width / 2, height / 2), tex_coords := (1, 0), color := color },
      { position := (width / 2, -(height / 2)), tex_coords := (1, 1), color := color }],
    indices := [0, 2, 1, 0, 3, 2] }

/-- C9: the shared quad mesh `TexturedQuad::new(1.0, 1.0, color)` of
`DrawQuadPipeline::new` has exactly 4 vertices placed at the corners of
`[-1/2, 1/2] × [-1/2, 1/2]` and exactly 6 indices `[0, 2, 1, 0, 3, 2]`
forming 2 triangles, each index below 4. -/
theorem c9_unit_quad (color : ℚ × ℚ × ℚ × ℚ) :
    (TexturedQuad.new 1 1 color).vertices.length = 4 ∧
    (TexturedQuad.new 1 1 color).vertices.map TexturedVertex.position =
      [(-(1 / 2), -(1 / 2)), (-(1 / 2), 1 / 2), (1 / 2, 1 / 2), (1 / 2, -(1 / 2))] ∧
    (TexturedQuad.new 1 1 color).indices = [0, 2, 1, 0, 3, 2] ∧
    (TexturedQuad.new 1 1 color).indices.length = 6 ∧
    ∀ i ∈ (TexturedQuad.new 1 1 color).indices, i < 4 := by
  refine ⟨rfl, rfl, rfl, rfl, ?_⟩
  intro i hi
  have h2 : i ∈ ([0, 2, 1, 0, 3, 2] : List ℕ) := hi
  simp only [List.mem_cons, List.not_mem_nil, or_false] at h2
  omega

/-! ## Simulator construction (src/ca_simulator.rs, `CASimulator::new`) -/

/-- `empty_grid`: a grid buffer with `width * height` cells of empty matter. -/
def empty_grid (width height : ℕ) : List ℕ :=
  List.replicate (width * height) 0

/-- The CPU-side core of `CASimulator::new`: the two `assert_eq!` divisibility
checks (a failing assert panics, modelled as `Except.error`, before any grid is
allocated), then the allocation of the two zero-filled matter buffers.
Device, pipeline and image creation are external effects outside the model. -/
def ca_simulator_new (size_x size_y local_x local_y : ℕ) :
    Except String (List ℕ × List ℕ) :=
  if size_x % local_x ≠ 0 then
    Except.error "assertion failed: CANVAS_SIZE_X % LOCAL_SIZE_X == 0"
  else if size_y % local_y ≠ 0 then
    Except.error "assertion failed: CANVAS_SIZE_Y % LOCAL_SIZE_Y == 0"
  else
    Except.ok (empty_grid size_x size_y, empty_grid size_x size_y)

/-- C6: construction fails (before any grid exists) exactly when a canvas size
is not divisible by the corresponding workgroup size, and otherwise yields two
grid buffers of `width * height` cells, all empty. -/
theorem c6_construction (size_x size_y local_x local_y : ℕ) :
    ((∃ e, ca_simulator_new size_x size_y local_x local_y = Except.error e) ↔
      size_x % local_x ≠ 0 ∨ size_y % local_y ≠ 0) ∧
    (size_x % local_x = 0 → size_y % local_y = 0 →
      ca_simulator_new size_x size_y local_x local_y =
        Except.ok (List.replicate (size_x * size_y) 0,
          List.replicate (size_x * size_y) 0)) := by
  constructor
  · constructor
    · rintro ⟨e, he⟩
      by_contra hn
      push_neg at hn
      simp [ca_simulator_new, hn.1, hn.2] at he
    · intro h
      by_cases h1 : size_x % local_x = 0
      · have h2 : size_y % local_y ≠ 0 := by tauto
        exact ⟨"assertion failed: CANVAS_SIZE_Y % LOCAL_SIZE_Y == 0",
          by simp [ca_simulator_new, h1, h2]⟩
      · exact ⟨"assertion failed: CANVAS_SIZE_X % LOCAL_SIZE_X == 0",
          by simp [ca_simulator_new, h1]⟩
  · intro h1 h2
    simp [ca_simulator_new, empty_grid, h1, h2]

/-- Witness for C6 at the actual configuration (512 and 32) and at a failing
configuration (513 and 32). -/
theorem c6_witness :
    (CANVAS_SIZE_X % LOCAL_SIZE_X = 0 ∧ CANVAS_SIZE_Y % LOCAL_SIZE_Y = 0 ∧
      ca_simulator_new CANVAS_SIZE_X CANVAS_SIZE_Y LOCAL_SIZE_X LOCAL_SIZE_Y =
        Except.ok (List.replicate (CANVAS_SIZE_X * CANVAS_SIZE_Y) 0,
          List.replicate (CANVAS_SIZE_X * CANVAS_SIZE_Y) 0)) ∧
    (∃ e, ca_simulator_new 513 512 32 32 = Except.error e) :=
  ⟨⟨by decide, by decide,
      (c6_construction CANVAS_SIZE_X CANVAS_SIZE_Y LOCAL_SIZE_X LOCAL_SIZE_Y).2
        (by decide) (by decide)⟩,
    (c6_construction 513 512 32 32).1.mpr (by decide)⟩

/-! ## Camera input (src/main.rs, `input_actions`)

`OrthographicCamera` is declared in camera.rs, which is not under src/; its
`pos` and `scale` fields are modelled from their uses in src/main.rs and from
the data model of the spec (2-D position, positive uniform scale). -/

structure OrthographicCamera where
  pos : ℚ × ℚ
  scale : ℚ
deriving DecidableEq, Repr

/-- The per-frame inputs read by `input_actions`: the four directional key
states, the frame time delta, and the `y` deltas of the pending `MouseWheel`
events in arrival order. -/
structure FrameInput where
  up : Bool
  down : Bool
  left : Bool
  right : Bool
  delta_seconds : ℚ
  scrolls : List ℚ
deriving DecidableEq, Repr

/-- The body of the `MouseWheel` loop of `input_actions`: a negative `y`
multiplies the scale by 1.05, any other `y` multiplies it by `1.0 / 1.05`. -/
def zoom_step (cam : OrthographicCamera) (y : ℚ) : OrthographicCamera :=
  if y < 0 then { cam with scale := cam.scale * (105 / 100) }
  else { cam with scale := cam.scale * (1 / (105 / 100)) }

/-- `input_actions`: keyboard pan followed by the scroll-wheel zoom loop.
`Vec2::length` (an f32 square root) is taken as the parameter `len`, applied
to the squared norm of the move direction; the pan only changes `pos`, so no
statement about the scale depends on `len`. -/
def input_actions (len : ℚ → ℚ) (cam : OrthographicCamera) (inp : FrameInput) :
    OrthographicCamera :=
  let x_axis : ℤ := -(if inp.right then 1 else 0) + (if inp.left then 1 else 0)
  let y_axis : ℤ := -(if inp.up then 1 else 0) + (if inp.down then 1 else 0)
  let move_delta : ℚ × ℚ := ((x_axis : ℚ), (y_axis : ℚ))
  let cam1 :=
    if move_delta ≠ (0, 0) then
      let l := len (move_delta.1 * move_delta.1 + move_delta.2 * move_delta.2)
      { cam with
        pos := (cam.pos.1 + move_delta.1 / l * inp.delta_seconds * CAMERA_MOVE_SPEED,
                cam.pos.2 + move_delta.2 / l * inp.delta_seconds * CAMERA_MOVE_SPEED) }
    else cam
  inp.scrolls.foldl zoom_step cam1

theorem zoom_step_scale_pos {c : OrthographicCamera} {y : ℚ} (h : 0 < c.scale) :
    0 < (zoom_step c y).scale := by
  rw [zoom_step]
  split_ifs <;> · simp only; positivity

theorem zoom_fold_scale_pos {l : List ℚ} {c : OrthographicCamera} (h : 0 < c.scale) :
    0 < (l.foldl zoom_step c).scale := by
  induction l generalizing c with
  | nil => exact h
  | cons y l ih => exact ih (zoom_step_scale_pos h)

theorem input_actions_scale_pos (len : ℚ → ℚ) (cam : OrthographicCamera)
    (inp : FrameInput) (h : 0 < cam.scale) :
    0 < (input_actions len cam inp).scale := by
  rw [input_actions]
  apply zoom_fold_scale_pos
  split_ifs <;> exact h

/-- C7: for every f32 length function, every starting camera with positive
scale, and every sequence of per-frame keyboard and scroll inputs handled by
`input_actions`, the camera scale stays positive. -/
theorem c7_scale_invariant (len : ℚ → ℚ) (inputs : List FrameInput) :
    ∀ cam : OrthographicCamera, 0 < cam.scale →
      0 < (inputs.foldl (input_actions len) cam).scale := by
  induction inputs with
  | nil => exact fun _ h => h
  | cons i is ih =>
    intro cam h
    simp only [List.foldl_cons]
    exact ih _ (input_actions_scale_pos len cam i h)

/-- Witness for C7 on a concrete input sequence (pan up, then three scroll
events in both directions). -/
theorem c7_witness :
    0 < (OrthographicCamera.mk (0, 0) 1).scale ∧
    0 < (([⟨true, false, false, false, 1, [1, -2, 0]⟩] : List FrameInput).foldl
        (input_actions (fun q => q)) ⟨(0, 0), 1⟩).scale :=
  ⟨by norm_num,
    c7_scale_invariant (fun q => q) [⟨true, false, false, false, 1, [1, -2, 0]⟩]
      ⟨(0, 0), 1⟩ (by norm_num)⟩

/-- C8: each scroll event applies exactly one of the two updates — a negative
`y` multiplies the scale by 1.05, any other `y` divides it by 1.05 — and, the
scale being nonzero (it is positive by its invariant), no scroll event leaves
it unchanged; the camera position is untouched by the zoom loop body. -/
theorem c8_zoom_tick (cam : OrthographicCamera) (y : ℚ) (h : 0 < cam.scale) :
    (y < 0 → (zoom_step cam y).scale = cam.scale * (105 / 100)) ∧
    (¬y < 0 → (zoom_step cam y).scale = cam.scale / (105 / 100)) ∧
    (zoom_step cam y).scale ≠ cam.scale ∧
    (zoom_step cam y).pos = cam.pos := by
  rw [zoom_step]
  split_ifs with hy
  · refine ⟨fun _ => rfl, fun hn => absurd hy hn, ?_, rfl⟩
    simp only
    intro he
    linarith
  · refine ⟨fun hc => absurd hc hy, fun _ => ?_, ?_, rfl⟩
    · simp only
      ring
    · simp only
      intro he
      linarith

/-- Witness for C8 at a concrete camera and scroll tick. -/
theorem c8_witness :
    0 < (OrthographicCamera.mk (3, 4) 2).scale ∧
    (((-1 : ℚ) < 0 → (zoom_step ⟨(3, 4), 2⟩ (-1)).scale = 2 * (105 / 100)) ∧
      (¬(-1 : ℚ) < 0 → (zoom_step ⟨(3, 4), 2⟩ (-1)).scale = 2 / (105 / 100)) ∧
      (zoom_step ⟨(3, 4), 2⟩ (-1)).scale ≠ 2 ∧
      (zoom_step ⟨(3, 4), 2⟩ (-1)).pos = (3, 4)) :=
  ⟨by norm_num, c8_zoom_tick ⟨(3, 4), 2⟩ (-1) (by norm_num)⟩

end CST
